import Mathlib

/-!
Verification development for the optics computation core and the
LaTeX-to-Unicode equation normalizer of the Physics-Optics-Explorer
repository.

The physics engines are shallowly embedded over `ℚ`: JavaScript numbers
are modelled exactly as rationals, with the explicit `Infinity` sentinel
used by the code modelled by the `JSNum.inf` constructor.  The
trigonometric primitives (`Math.sin`, `Math.asin`, `Math.cos`, `Math.PI`)
are abstracted into a `TrigOps` record, so every theorem about the prism
and interference engines holds for any interpretation of those
primitives (in particular the real ones); supplementary hypotheses such
as `cos 0 = 1` or `|sin x| ≤ |x|` record the facts of real trigonometry
a statement depends on.
-/

namespace OpticsCore

/-- A JavaScript number as used by the optics engines: either a finite
rational value or the `Infinity` sentinel the code assigns explicitly. -/
inductive JSNum
  | fin (x : ℚ)
  | inf
  deriving DecidableEq

/-- JavaScript `q > 0` (note `Infinity > 0` is `true` in JS). -/
def JSNum.gtZero : JSNum → Bool
  | .fin x => decide (0 < x)
  | .inf => true

/-- JavaScript `m < 0` (note `Infinity < 0` is `false` in JS). -/
def JSNum.ltZero : JSNum → Bool
  | .fin x => decide (x < 0)
  | .inf => false

/-- Result record of the single lens/mirror calculation
(`singleOpticResult` in `RayOpticsSim`). -/
structure SingleOpticResult where
  q : JSNum
  m : JSNum
  f : JSNum
  type : String
  orientation : String
  description : String
  deriving DecidableEq

/-- The single lens/mirror physics engine, transcribed from
`singleOpticResult` in `RayOpticsSim`:

* `f = subType === 'plane' ? Infinity : (subType === 'converging' ? 1 : -1) * focalLengthMag`
* plane mirror special case returns
  `{ q: -objDist, m: 1, f: Infinity, type: 'Virtual', orientation: 'Upright',
     description: 'Virtual image behind mirror' }`
* otherwise `q = Infinity` unless `|objDist - f| > 0.1`, in which case
  `q = objDist * f / (objDist - f)`; `m = isFinite(q) ? -q/objDist : Infinity`;
  `isReal = (lens && q > 0) || (mirror && q > 0)`. -/
def singleOpticResult (opticType subType : String) (objDist focalLengthMag : ℚ) :
    SingleOpticResult :=
  if subType = "plane" then
    { q := .fin (-objDist), m := .fin 1, f := .inf, type := "Virtual",
      orientation := "Upright", description := "Virtual image behind mirror" }
  else
    let f : ℚ := (if subType = "converging" then 1 else -1) * focalLengthMag
    let q : JSNum :=
      if |objDist - f| > 1/10 then .fin (objDist * f / (objDist - f)) else .inf
    let m : JSNum :=
      match q with
      | .fin qv => .fin (-qv / objDist)
      | .inf => .inf
    let isReal : Bool :=
      (opticType = "lens" && q.gtZero) || (opticType = "mirror" && q.gtZero)
    { q := q, m := m, f := .fin f,
      type := if isReal then "Real" else "Virtual",
      orientation := if m.ltZero then "Inverted" else "Upright",
      description := if isReal then "Projectable on screen"
                     else "Visible looking into optic" }

/-- Result record of the two-lens system calculation
(`twoLensResult` in `RayOpticsSim`). -/
structure TwoLensResult where
  q1 : JSNum
  p2 : JSNum
  q2 : JSNum
  M_total : JSNum
  deriving DecidableEq

/-- Second half of the two-lens engine: the lens-2 calculation performed
on the intermediate image `q1` (the `if (!isFinite(q1))` dispatch of
`twoLensResult` in `RayOpticsSim`):

* if `q1` is infinite: `p2 = Infinity`, `q2 = f2`, `M_total = -f2/f1`
* else `p2 = lensSep - q1`; if `|p2 - f2| < 0.1` then `q2` and `M_total`
  are `Infinity`, otherwise `q2 = p2*f2/(p2-f2)` and
  `M_total = (-q1/p1) * (-q2/p2)`. -/
def twoLensSecond (p1 f1 f2 lensSep : ℚ) (q1 : JSNum) : TwoLensResult :=
  match q1 with
  | .inf => { q1 := .inf, p2 := .inf, q2 := .fin f2, M_total := .fin (-f2 / f1) }
  | .fin q1v =>
    let p2 := lensSep - q1v
    if |p2 - f2| < 1/10 then
      { q1 := .fin q1v, p2 := .fin p2, q2 := .inf, M_total := .inf }
    else
      let q2 := p2 * f2 / (p2 - f2)
      let m1 := -q1v / p1
      let m2 := -q2 / p2
      { q1 := .fin q1v, p2 := .fin p2, q2 := .fin q2, M_total := .fin (m1 * m2) }

/-- The two-lens system engine, transcribed from `twoLensResult` in
`RayOpticsSim`: the intermediate image is
`q1 = Infinity` unless `|p1 - f1| > 0.1`, else `q1 = p1*f1/(p1-f1)`,
and the lens-2 stage is `twoLensSecond`. -/
def twoLensResult (objDist focalLengthMag lens2F lensSep : ℚ) : TwoLensResult :=
  let f1 := focalLengthMag
  let p1 := objDist
  let q1 : JSNum :=
    if |p1 - f1| > 1/10 then .fin (p1 * f1 / (p1 - f1)) else .inf
  twoLensSecond p1 f1 lens2F lensSep q1

/-- Abstract interface to the JavaScript `Math` trigonometric primitives
used by the prism and interference engines.  Theorems about those engines
are stated for an arbitrary interpretation, so they hold in particular
for the real `Math.sin` / `Math.asin` / `Math.cos` / `Math.PI`. -/
structure TrigOps where
  sin : ℚ → ℚ
  cos : ℚ → ℚ
  asin : ℚ → ℚ
  pi : ℚ

/-- The fields of the non-entry-TIR prism result record (`result` in
`PrismSim`). -/
structure PrismComputed where
  theta1Rad : ℚ
  theta2Rad : ℚ
  theta3Rad : ℚ
  theta4Rad : ℚ
  deviationDeg : ℚ
  isTIR : Bool
  stage : String
  criticalAngle : Option ℚ
  deriving DecidableEq

/-- The prism solver returns either the early entry-TIR record
`{ isTIR: true, stage: 'entry' }` or the full record. -/
inductive PrismResult
  | entryTIR
  | computed (r : PrismComputed)
  deriving DecidableEq

/-- The prism refraction engine, transcribed from `result` in `PrismSim`:

* `theta1Rad = incidentAngle * π / 180`
* `sinTheta2 = (nEnv / nPrism) * sin(theta1Rad)`; if `|sinTheta2| > 1`
  return `{ isTIR: true, stage: 'entry' }`
* `theta2Rad = asin(sinTheta2)`; `theta3Rad = angleA * π / 180 - theta2Rad`
* `sinTheta4 = (nPrism / nEnv) * sin(theta3Rad)`; `isTIR = |sinTheta4| > 1`
* `theta4Rad = isTIR ? 0 : asin(sinTheta4)`;
  `deviationRad = theta1Rad + theta4Rad - angleARad`
* `criticalAngle = nPrism > nEnv ? asin(nEnv / nPrism) * 180 / π : null`. -/
def prismResult (ops : TrigOps) (nPrism nEnv angleA incidentAngle : ℚ) : PrismResult :=
  let theta1Rad := incidentAngle * ops.pi / 180
  let sinTheta2 := (nEnv / nPrism) * ops.sin theta1Rad
  if |sinTheta2| > 1 then
    .entryTIR
  else
    let theta2Rad := ops.asin sinTheta2
    let angleARad := angleA * ops.pi / 180
    let theta3Rad := angleARad - theta2Rad
    let sinTheta4 := (nPrism / nEnv) * ops.sin theta3Rad
    let isTIR : Bool := decide (|sinTheta4| > 1)
    let theta4Rad := if isTIR then 0 else ops.asin sinTheta4
    let deviationRad := theta1Rad + theta4Rad - angleARad
    let criticalAngle : Option ℚ :=
      if nPrism > nEnv then some (ops.asin (nEnv / nPrism) * 180 / ops.pi) else none
    .computed
      { theta1Rad := theta1Rad, theta2Rad := theta2Rad, theta3Rad := theta3Rad,
        theta4Rad := theta4Rad, deviationDeg := deviationRad * 180 / ops.pi,
        isTIR := isTIR, stage := if isTIR then "exit" else "complete",
        criticalAngle := criticalAngle }

/-- The diffraction/interference intensity at one screen position,
transcribed from the per-pixel loop of `InterferenceSim`:

* `sinTheta = yPos / L`
* `beta = π * a * sinTheta / lambda`;
  `diffraction = beta === 0 ? 1 : (sin(beta) / beta)^2`
* `alpha = π * d * sinTheta / lambda`;
  `interference = mode === 'double' ? cos(alpha)^2 : 1`
* `intensity = diffraction * interference`. -/
def intensityAt (ops : TrigOps) (mode : String) (lambda a d L yPos : ℚ) : ℚ :=
  let sinTheta := yPos / L
  let beta := ops.pi * a * sinTheta / lambda
  let diffraction := if beta = 0 then 1 else (ops.sin beta / beta) ^ 2
  let alpha := ops.pi * d * sinTheta / lambda
  let interference := if mode = "double" then (ops.cos alpha) ^ 2 else 1
  diffraction * interference

/-- A concrete, fully computable interpretation of the trigonometric
primitives, used only to instantiate witnesses and counterexamples:
`sin` and `asin` are the identity, `cos` is constantly `1`, `π` is `3`.
It satisfies `sin 0 = 0`, `asin 0 = 0`, `cos 0 = 1`, `|sin x| ≤ |x|` and
`|cos x| ≤ 1`, the only trigonometric facts the theorems rely on. -/
def sampleOps : TrigOps :=
  { sin := fun x => x, cos := fun _ => 1, asin := fun x => x, pi := 3 }

/-!
The LaTeX-to-Unicode equation normalizer (`cleanLatex` in `Equation`).

The JavaScript function is a pipeline of global regex replacements.  It
is embedded here over `List Char`: each regex is a hand-written anchored
matcher (`step…`), and `scanRewrite` reproduces the semantics of
JavaScript's global `String.replace` — scan left to right, at each
position try the anchored match, on success emit the replacement and
continue after the match, otherwise copy one character and advance.
Every pattern of the source consumes at least one character on success,
so a fuel of the input length makes the scan total and exact.  The opening
and closing brace characters are named `lbrace`/`rbrace`.
-/

/-- The `U+007B` left-brace character. -/
def lbrace : Char := Char.ofNat 123

/-- The `U+007D` right-brace character. -/
def rbrace : Char := Char.ofNat 125

/-- JavaScript regex `\s` (ASCII part): space, tab, newline, carriage
return, vertical tab, form feed. -/
def jsWs (c : Char) : Bool :=
  c = ' ' || c = '\t' || c = '\n' || c = '\r' || c = '\x0B' || c = '\x0C'

/-- Character class `[^{}]`. -/
def notBrace (c : Char) : Bool :=
  !(c = lbrace || c = rbrace)

/-- One pass of the global-replace scan, with explicit fuel (one unit per
scan position; `scanRewrite` supplies `s.length`, which suffices because
every matcher consumes at least one character). -/
def scanGo (step : List Char → Option (List Char × List Char)) :
    Nat → List Char → List Char
  | 0, s => s
  | fuel + 1, s =>
    match step s with
    | some (repl, rest) => repl ++ scanGo step fuel rest
    | none =>
      match s with
      | [] => []
      | c :: cs => c :: scanGo step fuel cs

/-- JavaScript global `String.replace` with an anchored matcher `step`:
at each position, `step` either matches a prefix (returning the
replacement and the remaining input) or fails. -/
def scanRewrite (step : List Char → Option (List Char × List Char))
    (s : List Char) : List Char :=
  scanGo step s.length s

/-- Anchored literal-prefix test. -/
def startsWith : List Char → List Char → Bool
  | [], _ => true
  | _ :: _, [] => false
  | p :: ps, c :: cs => p = c && startsWith ps cs

/-- Anchored matcher for a literal pattern (used for `split(k).join(v)`
and the simple literal replacements). -/
def stepLit (pat repl : List Char) (s : List Char) :
    Option (List Char × List Char) :=
  if pat.isEmpty then none
  else if startsWith pat s then some (repl, s.drop pat.length) else none

/-- `s.split(pat).join(repl)` / global literal replacement. -/
def replaceAll (pat repl s : List Char) : List Char :=
  scanRewrite (stepLit pat repl) s

/-- Anchored matcher for `\\[,;!:]` → `' '` (spacing commands). -/
def stepSpacing : List Char → Option (List Char × List Char)
  | c :: c2 :: rest =>
    if c = '\\' && (c2 = ',' || c2 = ';' || c2 = '!' || c2 = ':') then
      some ([' '], rest)
    else none
  | _ => none

/-- Global `\s+` → `' '` (whitespace run collapse). -/
def collapseWs : List Char → List Char
  | [] => []
  | [c] => if jsWs c then [' '] else [c]
  | c1 :: c2 :: rest =>
    if jsWs c1 && jsWs c2 then collapseWs (c2 :: rest)
    else (if jsWs c1 then ' ' else c1) :: collapseWs (c2 :: rest)

/-- JavaScript `String.trim` (both-ends whitespace strip). -/
def trimJs (s : List Char) : List Char :=
  ((s.dropWhile jsWs).reverse.dropWhile jsWs).reverse

/-- The global symbol map of the source, in insertion order. -/
def symbolPairs : List (String × String) :=
  [("\\lambda", "λ"), ("\\theta", "θ"), ("\\delta", "δ"), ("\\Delta", "Δ"),
   ("\\mu", "μ"), ("\\alpha", "α"), ("\\beta", "β"), ("\\gamma", "γ"),
   ("\\pi", "π"), ("\\rho", "ρ"), ("\\sigma", "σ"), ("\\phi", "φ"),
   ("\\psi", "ψ"), ("\\omega", "ω"), ("\\Omega", "Ω"), ("\\epsilon", "ε"),
   ("\\tau", "τ"),
   ("\\sin", "sin"), ("\\cos", "cos"), ("\\tan", "tan"),
   ("\\arcsin", "arcsin"), ("\\arccos", "arccos"), ("\\arctan", "arctan"),
   ("\\ln", "ln"), ("\\log", "log"),
   ("\\approx", "≈"), ("\\cdot", "·"), ("\\times", "×"),
   ("\\le", "≤"), ("\\ge", "≥"), ("\\pm", "±"), ("\\mp", "∓"),
   ("\\infty", "∞"), ("\\to", "→"), ("\\rightarrow", "→"), ("\\leftarrow", "←"),
   ("\\degree", "°"), ("\\circ", "°"),
   ("\\int", "∫"), ("\\oint", "∮"), ("\\sum", "Σ"), ("\\partial", "∂"),
   ("\\nabla", "∇")]

/-- Stable insertion of one pair into a key-length-descending list
(ties keep earlier elements first, as JavaScript's stable `sort` with
comparator `b.length - a.length`). -/
def insertByLen (x : String × String) :
    List (String × String) → List (String × String)
  | [] => [x]
  | y :: ys => if x.1.length ≥ y.1.length then x :: y :: ys else y :: insertByLen x ys

/-- `Object.keys(map).sort((a, b) => b.length - a.length)` with values. -/
def sortedSymbolPairs : List (String × String) :=
  symbolPairs.foldr insertByLen []

/-- Apply every symbol substitution, longest key first
(`s.split(key).join(map[key])` per key). -/
def applySymbolMap (s : List Char) : List Char :=
  sortedSymbolPairs.foldl (fun acc kv => replaceAll kv.1.data kv.2.data acc) s

/-- The subscript character table `subMap`. -/
def subMapChar : Char → Option Char
  | '0' => some '₀' | '1' => some '₁' | '2' => some '₂' | '3' => some '₃'
  | '4' => some '₄' | '5' => some '₅' | '6' => some '₆' | '7' => some '₇'
  | '8' => some '₈' | '9' => some '₉'
  | '+' => some '₊' | '-' => some '₋' | '=' => some '₌'
  | '(' => some '₍' | ')' => some '₎'
  | 'a' => some 'ₐ' | 'e' => some 'ₑ' | 'h' => some 'ₕ' | 'i' => some 'ᵢ'
  | 'k' => some 'ₖ' | 'l' => some 'ₗ' | 'm' => some 'ₘ' | 'n' => some 'ₙ'
  | 'o' => some 'ₒ' | 'p' => some 'ₚ' | 'r' => some 'ᵣ' | 's' => some 'ₛ'
  | 't' => some 'ₜ' | 'u' => some 'ᵤ' | 'v' => some 'ᵥ' | 'x' => some 'ₓ'
  | _ => none

/-- The superscript character table `supMap`. -/
def supMapChar : Char → Option Char
  | '0' => some '⁰' | '1' => some '¹' | '2' => some '²' | '3' => some '³'
  | '4' => some '⁴' | '5' => some '⁵' | '6' => some '⁶' | '7' => some '⁷'
  | '8' => some '⁸' | '9' => some '⁹'
  | '+' => some '⁺' | '-' => some '⁻' | '=' => some '⁼'
  | '(' => some '⁽' | ')' => some '⁾'
  | 'n' => some 'ⁿ' | 'i' => some 'ⁱ' | 'x' => some 'ˣ' | 'y' => some 'ʸ'
  | _ => none

/-- Anchored `\{([^{}]+)\}`: a brace-delimited nonempty run of non-brace
characters; returns the captured run and the rest. -/
def matchBracedArg (s : List Char) : Option (List Char × List Char) :=
  match s with
  | [] => none
  | c :: rest =>
    if c = lbrace then
      let inner := rest.takeWhile notBrace
      match rest.dropWhile notBrace with
      | c2 :: rest2 => if c2 = rbrace && !inner.isEmpty then some (inner, rest2) else none
      | [] => none
    else none

/-- Anchored `\\text\s*\{([^{}]+)\}` → `$1`. -/
def stepText : List Char → Option (List Char × List Char)
  | [] => none
  | c :: rest =>
    if c = '\\' && startsWith "text".data rest then
      matchBracedArg ((rest.drop 4).dropWhile jsWs)
    else none

/-- Anchored `\\sqrt\s*\{([^{}]+)\}` → `√($1)`. -/
def stepSqrtBrace : List Char → Option (List Char × List Char)
  | [] => none
  | c :: rest =>
    if c = '\\' && startsWith "sqrt".data rest then
      match matchBracedArg ((rest.drop 4).dropWhile jsWs) with
      | some (inner, rest2) => some ('√' :: '(' :: (inner ++ [')']), rest2)
      | none => none
    else none

/-- Anchored `\\sqrt\s*\[([^{}]+)\]\s*\{([^{}]+)\}` → `root($1, $2)`.
The greedy class `[^{}]+` may contain `]`; backtracking selects the last
`]` that is followed (inside the non-brace run) only by whitespace and
then by the braced second argument. -/
def stepSqrtRoot : List Char → Option (List Char × List Char)
  | [] => none
  | c :: rest =>
    if c = '\\' && startsWith "sqrt".data rest then
      match (rest.drop 4).dropWhile jsWs with
      | [] => none
      | c2 :: rest2 =>
        if c2 = '[' then
          let run := rest2.takeWhile notBrace
          let rest3 := rest2.dropWhile notBrace
          match run.reverse.dropWhile jsWs with
          | [] => none
          | b :: innerRev =>
            if b = ']' && !innerRev.isEmpty then
              match matchBracedArg rest3 with
              | some (inner2, rest4) =>
                some ("root(".data ++ innerRev.reverse ++ ", ".data ++
                  inner2 ++ [')'], rest4)
              | none => none
            else none
        else none
    else none

/-- Anchored `\\frac\s*\{([^{}]+)\}\s*\{([^{}]+)\}` → `($1)/($2)`. -/
def stepFrac : List Char → Option (List Char × List Char)
  | [] => none
  | c :: rest =>
    if c = '\\' && startsWith "frac".data rest then
      match matchBracedArg ((rest.drop 4).dropWhile jsWs) with
      | some (a, rest2) =>
        match matchBracedArg (rest2.dropWhile jsWs) with
        | some (b, rest3) => some ('(' :: (a ++ ")/(".data ++ b ++ [')']), rest3)
        | none => none
      | none => none
    else none

/-- Anchored `_\{([^{}]+)\}` with the source's callback: fully mapped
subscripts are rendered, otherwise fall back to `_$1` (braces
stripped). -/
def stepSubBrace : List Char → Option (List Char × List Char)
  | [] => none
  | c :: rest =>
    if c = '_' then
      match matchBracedArg rest with
      | some (inner, rest2) =>
        if inner.all (fun ch => (subMapChar ch).isSome) then
          some (inner.map (fun ch => (subMapChar ch).getD ch), rest2)
        else
          some ('_' :: inner, rest2)
      | none => none
    else none

/-- Anchored `\^\{([^{}]+)\}` with the source's callback: `^{°}` becomes
`°`; fully mapped superscripts are rendered; otherwise `^($1)`. -/
def stepSupBrace : List Char → Option (List Char × List Char)
  | [] => none
  | c :: rest =>
    if c = '^' then
      match matchBracedArg rest with
      | some (inner, rest2) =>
        if inner = ['°'] then some (['°'], rest2)
        else if inner.all (fun ch => (supMapChar ch).isSome) then
          some (inner.map (fun ch => (supMapChar ch).getD ch), rest2)
        else
          some ('^' :: '(' :: (inner ++ [')']), rest2)
      | none => none
    else none

/-- One iteration of the structural-resolution loop: the five
replacements `\text`, `\sqrt{}`, `\sqrt[]{}`, `\frac`, `_{}`, `^{}`
applied in the source's order. -/
def structPass (s : List Char) : List Char :=
  scanRewrite stepSupBrace (scanRewrite stepSubBrace (scanRewrite stepFrac
    (scanRewrite stepSqrtRoot (scanRewrite stepSqrtBrace
      (scanRewrite stepText s)))))

/-- The source's `do { oldS = s; loops++; s = pass(s) } while (s !== oldS
&& loops < maxLoops)` with `maxLoops = 10`, returning the final string
and the number of passes executed.  The fuel argument equals
`maxLoops - loops` and never runs out. -/
def cleanLoopGo : Nat → Nat → List Char → List Char × Nat
  | 0, loops, s => (s, loops)
  | fuel + 1, loops, s =>
    let s2 := structPass s
    let loops2 := loops + 1
    if s2 ≠ s ∧ loops2 < 10 then cleanLoopGo fuel loops2 s2 else (s2, loops2)

/-- Run the structural-resolution loop from the initial state. -/
def cleanLoopRun (s : List Char) : List Char × Nat :=
  cleanLoopGo 10 0 s

/-- Character class `[a-zA-Z0-9]`. -/
def isAlnumAscii (c : Char) : Bool :=
  ('a' ≤ c && c ≤ 'z') || ('A' ≤ c && c ≤ 'Z') || ('0' ≤ c && c ≤ '9')

/-- JavaScript regex `\w` = `[A-Za-z0-9_]`. -/
def isWordChar (c : Char) : Bool :=
  isAlnumAscii c || c = '_'

/-- Character class `[a-zA-Z0-9Ͱ-Ͽ]` (ASCII alphanumerics and
the Greek block). -/
def isAlnumGreek (c : Char) : Bool :=
  isAlnumAscii c || (0x370 ≤ c.toNat && c.toNat ≤ 0x3FF)

/-- Anchored `_([a-zA-Z0-9])` with callback `subMap[c] || '_' + c`. -/
def stepSubSingle : List Char → Option (List Char × List Char)
  | c :: c2 :: rest =>
    if c = '_' && isAlnumAscii c2 then
      match subMapChar c2 with
      | some u => some ([u], rest)
      | none => some (['_', c2], rest)
    else none
  | _ => none

/-- Anchored `\^([a-zA-Z0-9])` with callback `supMap[c] || '^' + c`. -/
def stepSupSingle : List Char → Option (List Char × List Char)
  | c :: c2 :: rest =>
    if c = '^' && isAlnumAscii c2 then
      match supMapChar c2 with
      | some u => some ([u], rest)
      | none => some (['^', c2], rest)
    else none
  | _ => none

/-- Global `[{}]` → `''` (strip remaining braces). -/
def removeBraces (s : List Char) : List Char :=
  s.filter notBrace

/-- Anchored `\(([a-zA-Z0-9Ͱ-Ͽ]+)\)\/\(([a-zA-Z0-9Ͱ-Ͽ]+)\)`
→ `$1/$2`. -/
def stepFracPolish : List Char → Option (List Char × List Char)
  | c :: rest =>
    if c = '(' then
      let run1 := rest.takeWhile isAlnumGreek
      match rest.dropWhile isAlnumGreek with
      | ')' :: '/' :: '(' :: rest2 =>
        let run2 := rest2.takeWhile isAlnumGreek
        match rest2.dropWhile isAlnumGreek with
        | ')' :: rest3 =>
          if !run1.isEmpty && !run2.isEmpty then
            some (run1 ++ '/' :: run2, rest3)
          else none
        | _ => none
      | _ => none
    else none
  | [] => none

/-- Anchored `\^\(([\d\w])\)` → `^$1`. -/
def stepSupParen : List Char → Option (List Char × List Char)
  | c :: c2 :: c3 :: c4 :: rest =>
    if c = '^' && c2 = '(' && isWordChar c3 && c4 = ')' then
      some (['^', c3], rest)
    else none
  | _ => none

/-- The full normalizer `cleanLatex` of the `Equation` component, as the
ordered pipeline of the source:

1. spacing commands, escaped spaces, whitespace collapse, and the
   `\left`/`\right`/`\mathrm`/`\mathbf` strips;
2. the global symbol map, longest key first;
3. the bounded structural-resolution loop (`maxLoops = 10`);
4. unbraced single-character sub/superscripts;
5. brace strip, whitespace collapse, trim;
6. cosmetic polishing of `($1)/($2)` and `^($1)`. -/
def cleanLatexL (s0 : List Char) : List Char :=
  let s := scanRewrite stepSpacing s0
  let s := replaceAll "\\ ".data " ".data s
  let s := collapseWs s
  let s := replaceAll "\\left".data [] s
  let s := replaceAll "\\right".data [] s
  let s := replaceAll "\\mathrm".data [] s
  let s := replaceAll "\\mathbf".data [] s
  let s := applySymbolMap s
  let s := (cleanLoopRun s).1
  let s := scanRewrite stepSubSingle s
  let s := scanRewrite stepSupSingle s
  let s := removeBraces s
  let s := trimJs (collapseWs s)
  let s := scanRewrite stepFracPolish s
  let s := scanRewrite stepSupParen s
  s

/-- `cleanLatex` on `String`, the API of the source. -/
def cleanLatex (s : String) : String :=
  String.mk (cleanLatexL s.data)

/-- A character that can take part in none of the normalizer's
rewrites: not a backslash (so no LaTeX command or escaped space), not a
brace, not a sub/superscript marker, and not an opening parenthesis (so
the cosmetic rules cannot fire). -/
def PlainChar (c : Char) : Prop :=
  c ≠ '\\' ∧ c ≠ lbrace ∧ c ≠ rbrace ∧ c ≠ '_' ∧ c ≠ '^' ∧ c ≠ '('

instance : DecidablePred PlainChar := fun c => by
  unfold PlainChar
  infer_instance

/-- Every character of the string is inert for the normalizer. -/
def Plain (s : List Char) : Prop :=
  ∀ c ∈ s, PlainChar c

/-- Whitespace-normal form: every whitespace character is a plain space
and no two whitespace characters are adjacent — the invariant
established by the `\s+` → `' '` collapse. -/
def WsNormal (t : List Char) : Prop :=
  (∀ c ∈ t, jsWs c = true → c = ' ') ∧
  t.Chain' (fun a b => ¬(jsWs a = true ∧ jsWs b = true))

/-- Claim C7: for every object distance `p`, the plane-mirror case returns
image distance `q = -p`, magnification `m = 1`, nature Virtual and
orientation Upright, as a fixed special case not derived from the general
thin-lens formula (the code returns the literal record before ever
touching the `1/p + 1/q = 1/f` branch). -/
theorem plane_mirror_case (t : String) (p fm : ℚ) :
    (singleOpticResult t "plane" p fm).q = .fin (-p) ∧
    (singleOpticResult t "plane" p fm).m = .fin 1 ∧
    (singleOpticResult t "plane" p fm).type = "Virtual" ∧
    (singleOpticResult t "plane" p fm).orientation = "Upright" := by
  simp [singleOpticResult]

/-- Claim C1 (amended): for a non-plane optic with object distance `p > 0`
and signed focal length `f`, if `|p - f| ≤ 0.1` (note: `≤`, not `<` — the
code computes the finite value only when `|p - f| > 0.1`) the reported
image distance and magnification are the infinite sentinel; if
`|p - f| > 0.1` then `q = p·f/(p-f)`, `m = -q/p`, the thin-lens relation
`1/p + 1/q = 1/f` holds, nature is Real iff `q > 0` and orientation is
Inverted iff `m < 0`, for lens and mirror alike. -/
theorem singleOptic_claim_amended (t st : String) (ht : t = "lens" ∨ t = "mirror")
    (hst : st = "converging" ∨ st = "diverging") (p fm f : ℚ) (hp : 0 < p)
    (hf : f = (if st = "converging" then 1 else -1) * fm) :
    (|p - f| ≤ 1/10 →
      (singleOpticResult t st p fm).q = .inf ∧ (singleOpticResult t st p fm).m = .inf) ∧
    (1/10 < |p - f| →
      (singleOpticResult t st p fm).q = .fin (p * f / (p - f)) ∧
      (singleOpticResult t st p fm).m = .fin (-(p * f / (p - f)) / p) ∧
      (f ≠ 0 → 1/p + 1/(p * f / (p - f)) = 1/f) ∧
      (singleOpticResult t st p fm).type =
        (if 0 < p * f / (p - f) then "Real" else "Virtual") ∧
      (singleOpticResult t st p fm).orientation =
        (if -(p * f / (p - f)) / p < 0 then "Inverted" else "Upright")) := by
  have hplane : ¬(st = "plane") := by
    rcases hst with h | h <;> subst h <;> decide
  constructor
  · intro hle
    have hcond : ¬(|p - f| > 1/10) := not_lt.mpr hle
    rw [hf] at hcond
    simp only [singleOpticResult, if_neg hplane, if_neg hcond]
    exact ⟨trivial, trivial⟩
  · intro hgt
    have hcond : |p - (if st = "converging" then (1:ℚ) else -1) * fm| > 1/10 := by
      rw [← hf]; exact hgt
    have hne : p - f ≠ 0 := by
      intro h0
      rw [h0] at hgt
      simp at hgt
      exact absurd hgt (by norm_num)
    refine ⟨?_, ?_, ?_, ?_, ?_⟩
    · simp only [singleOpticResult, if_neg hplane, if_pos hcond, hf]
    · simp only [singleOpticResult, if_neg hplane, if_pos hcond, hf]
    · intro hf0
      have hpne : p ≠ 0 := ne_of_gt hp
      field_simp
    · by_cases h0 : 0 < p * f / (p - f) <;>
        rcases ht with h | h <;> subst h <;>
        simp only [singleOpticResult, if_neg hplane, if_pos hcond, hf, JSNum.gtZero] <;>
        simp [h0, ← hf]
    · by_cases h0 : -(p * f / (p - f)) / p < 0 <;>
        simp only [singleOpticResult, if_neg hplane, if_pos hcond, hf, JSNum.ltZero] <;>
        simp [h0, ← hf]

/-- Claim C1 counterexample: at `p = 100.1`, converging `f = 100` we have
`|p - f| = 0.1`, so the claim's `|p - f| < 0.1` branch does not apply and
the claim prescribes the finite `q = p·f/(p - f)`; the code, whose finite
branch requires `|p - f| > 0.1`, returns the infinite sentinel instead. -/
theorem singleOptic_boundary_counterexample :
    ¬(|(1001:ℚ)/10 - 100| < 1/10) ∧
    (singleOpticResult "lens" "converging" (1001/10) 100).q = JSNum.inf ∧
    JSNum.inf ≠ JSNum.fin ((1001:ℚ)/10 * 100 / ((1001:ℚ)/10 - 100)) := by
  refine ⟨?_, ?_, by simp⟩
  · rw [show (1001:ℚ)/10 - 100 = 1/10 by norm_num, abs_of_pos (by norm_num)]
    norm_num
  · have hplane : ¬(("converging":String) = "plane") := by decide
    simp only [singleOpticResult, if_neg hplane]
    norm_num
    rw [abs_of_pos (by norm_num : (0:ℚ) < 1/10)]
    simp

/-- Witness for the amended claim C1 at `p = 200`, converging `f = 100`. -/
theorem singleOptic_claim_amended_witness :
    (singleOpticResult "lens" "converging" 200 100).q = JSNum.fin (200 * 100 / (200 - 100)) ∧
    (singleOpticResult "lens" "converging" 200 100).m =
      JSNum.fin (-(200 * 100 / ((200:ℚ) - 100)) / 200) := by
  have h := (singleOptic_claim_amended "lens" "converging" (Or.inl rfl) (Or.inl rfl)
      200 100 100 (by norm_num) (by rw [if_pos rfl]; norm_num)).2 (by
        rw [show (200:ℚ) - 100 = 100 by norm_num, abs_of_pos (by norm_num)]
        norm_num)
  exact ⟨h.1, h.2.1⟩

/-- Claim C6 (amended): for every non-plane optic the description string
is determined by the image nature alone — Real gives
"Projectable on screen", Virtual gives "Visible looking into optic".
The plane mirror is the exception: it returns the fixed string
"Virtual image behind mirror". -/
theorem description_from_nature_amended (t st : String) (hst : ¬(st = "plane")) (p fm : ℚ) :
    (singleOpticResult t st p fm).description =
      (if (singleOpticResult t st p fm).type = "Real" then "Projectable on screen"
       else "Visible looking into optic") := by
  have descHelper : ∀ c : Bool,
      (if c then "Projectable on screen" else "Visible looking into optic") =
        (if (if c then "Real" else "Virtual") = "Real" then "Projectable on screen"
         else "Visible looking into optic") := by
    intro c
    cases c <;> simp
  simp only [singleOpticResult, if_neg hst]
  exact descHelper _

/-- Claim C6 counterexample: the plane mirror produces a Virtual image but
its description is the fixed string "Virtual image behind mirror", not
the nature-derived "Visible looking into optic" the claim prescribes. -/
theorem description_plane_counterexample :
    (singleOpticResult "mirror" "plane" 200 100).type = "Virtual" ∧
    (singleOpticResult "mirror" "plane" 200 100).description = "Virtual image behind mirror" ∧
    ("Virtual image behind mirror" : String) ≠ "Visible looking into optic" := by
  refine ⟨?_, ?_, by decide⟩ <;> simp [singleOpticResult]

/-- Witness for the amended claim C6 on a diverging lens. -/
theorem description_from_nature_amended_witness :
    (singleOpticResult "lens" "diverging" 200 100).description =
      (if (singleOpticResult "lens" "diverging" 200 100).type = "Real"
       then "Projectable on screen" else "Visible looking into optic") :=
  description_from_nature_amended "lens" "diverging" (by decide) 200 100

/-- Unfolding equation for `twoLensSecond` on a finite intermediate
image. -/
theorem twoLensSecond_fin (p1 f1 f2 sep q1v : ℚ) :
    twoLensSecond p1 f1 f2 sep (.fin q1v) =
      (if |sep - q1v - f2| < 1/10 then
        { q1 := .fin q1v, p2 := .fin (sep - q1v), q2 := .inf, M_total := .inf }
      else
        { q1 := .fin q1v, p2 := .fin (sep - q1v),
          q2 := .fin ((sep - q1v) * f2 / (sep - q1v - f2)),
          M_total := .fin ((-q1v / p1) *
            (-((sep - q1v) * f2 / (sep - q1v - f2)) / (sep - q1v))) }) :=
  rfl

/-- Claim C4: two-lens system.  If `p1 = f1` exactly then `q1` is the
infinite sentinel; whenever `q1` is infinite the result is `p2`
infinite, `q2 = f2` and `M = -f2/f1`; otherwise `p2 = separation - q1`,
and if `|p2 - f2| < 0.1` both `q2` and `M` are infinite, else
`q2 = p2·f2/(p2-f2)` and `M = (-q1/p1)·(-q2/p2)`. -/
theorem twoLens_claim (p1 f1 f2 sep : ℚ) :
    (p1 = f1 → (twoLensResult p1 f1 f2 sep).q1 = .inf) ∧
    ((twoLensResult p1 f1 f2 sep).q1 = .inf →
      (twoLensResult p1 f1 f2 sep).p2 = .inf ∧
      (twoLensResult p1 f1 f2 sep).q2 = .fin f2 ∧
      (twoLensResult p1 f1 f2 sep).M_total = .fin (-f2 / f1)) ∧
    (∀ v : ℚ, (twoLensResult p1 f1 f2 sep).q1 = .fin v →
      (twoLensResult p1 f1 f2 sep).p2 = .fin (sep - v) ∧
      (|sep - v - f2| < 1/10 →
        (twoLensResult p1 f1 f2 sep).q2 = .inf ∧
        (twoLensResult p1 f1 f2 sep).M_total = .inf) ∧
      (¬(|sep - v - f2| < 1/10) →
        (twoLensResult p1 f1 f2 sep).q2 = .fin ((sep - v) * f2 / (sep - v - f2)) ∧
        (twoLensResult p1 f1 f2 sep).M_total =
          .fin ((-v / p1) * (-((sep - v) * f2 / (sep - v - f2)) / (sep - v))))) := by
  by_cases hq : |p1 - f1| > 1/10
  · rw [twoLensResult, if_pos hq]
    refine ⟨?_, ?_, ?_⟩
    · intro h
      rw [h] at hq
      simp at hq
      exact absurd hq (by norm_num)
    · intro h
      exfalso
      rw [twoLensSecond_fin] at h
      by_cases h2 : |sep - p1 * f1 / (p1 - f1) - f2| < 1/10
      · rw [if_pos h2] at h
        exact JSNum.noConfusion h
      · rw [if_neg h2] at h
        exact JSNum.noConfusion h
    · intro v hv
      rw [twoLensSecond_fin] at hv
      have hveq : p1 * f1 / (p1 - f1) = v := by
        by_cases h2 : |sep - p1 * f1 / (p1 - f1) - f2| < 1/10
        · rw [if_pos h2] at hv
          exact JSNum.fin.inj hv
        · rw [if_neg h2] at hv
          exact JSNum.fin.inj hv
      subst hveq
      rw [twoLensSecond_fin]
      by_cases h2 : |sep - p1 * f1 / (p1 - f1) - f2| < 1/10
      · rw [if_pos h2]
        exact ⟨rfl, fun _ => ⟨rfl, rfl⟩, fun hn => absurd h2 hn⟩
      · rw [if_neg h2]
        exact ⟨rfl, fun hc => absurd hc h2, fun _ => ⟨rfl, rfl⟩⟩
  · rw [twoLensResult, if_neg hq]
    refine ⟨?_, ?_, ?_⟩
    · intro _
      rfl
    · intro _
      exact ⟨rfl, rfl, rfl⟩
    · intro v hv
      exact JSNum.noConfusion hv

/-- Witness for claim C4 at `p1 = 200`, `f1 = 100`, `f2 = 100`,
separation `300`: the intermediate image lands exactly on lens 2's focal
plane, so `q2` and `M` are both infinite. -/
theorem twoLens_claim_witness :
    (twoLensResult 200 100 100 300).q2 = JSNum.inf ∧
    (twoLensResult 200 100 100 300).M_total = JSNum.inf := by
  have hq : |(200:ℚ) - 100| > 1/10 := by
    rw [show (200:ℚ) - 100 = 100 by norm_num, abs_of_pos (by norm_num)]
    norm_num
  have hq1 : (twoLensResult 200 100 100 300).q1 = JSNum.fin 200 := by
    rw [twoLensResult, if_pos hq, show (200:ℚ) * 100 / (200 - 100) = 200 by norm_num,
      twoLensSecond_fin,
      if_pos (by rw [show (300:ℚ) - 200 - 100 = 0 by norm_num, abs_zero]; norm_num :
        |(300:ℚ) - 200 - 100| < 1/10)]
  exact ((twoLens_claim 200 100 100 300).2.2 200 hq1).2.1 (by
    rw [show (300:ℚ) - 200 - 100 = 0 by norm_num, abs_zero]
    norm_num)

/-- Claim C2: the prism solver computes `sinθ2 = (n1/n2)·sinθ1`; if
`|sinθ2| > 1` it reports entry-stage TIR and stops (no further angles in
the result); otherwise it returns the full record with
`θ2 = asin(sinθ2)`, `θ3 = A - θ2`, `sinθ4 = (n2/n1)·sinθ3`, and in the
complete (non-TIR) case deviation `δ = θ1 + θ4 - A` (in degrees) and a
critical angle `asin(n1/n2)` present exactly when `n2 > n1`, `none`
otherwise.  Here `nPrism` is the claim's `n2` and `nEnv` its `n1`, and
`ops` is any interpretation of the trigonometric primitives. -/
theorem prism_entry_and_complete_claim (ops : TrigOps)
    (nPrism nEnv angleA incidentAngle : ℚ)
    (s2 : ℚ) (hs2 : s2 = (nEnv / nPrism) * ops.sin (incidentAngle * ops.pi / 180))
    (s4 : ℚ)
    (hs4 : s4 = (nPrism / nEnv) * ops.sin (angleA * ops.pi / 180 - ops.asin s2)) :
    (|s2| > 1 → prismResult ops nPrism nEnv angleA incidentAngle = .entryTIR) ∧
    (|s2| ≤ 1 → prismResult ops nPrism nEnv angleA incidentAngle = .computed
      { theta1Rad := incidentAngle * ops.pi / 180,
        theta2Rad := ops.asin s2,
        theta3Rad := angleA * ops.pi / 180 - ops.asin s2,
        theta4Rad := if |s4| > 1 then 0 else ops.asin s4,
        deviationDeg := (incidentAngle * ops.pi / 180 +
          (if |s4| > 1 then 0 else ops.asin s4) - angleA * ops.pi / 180) * 180 / ops.pi,
        isTIR := decide (|s4| > 1),
        stage := if |s4| > 1 then "exit" else "complete",
        criticalAngle := if nPrism > nEnv
          then some (ops.asin (nEnv / nPrism) * 180 / ops.pi) else none }) := by
  subst hs2
  subst hs4
  constructor
  · intro h
    rw [prismResult, if_pos h]
  · intro h2
    rw [prismResult, if_neg (not_lt.mpr h2)]
    simp only [decide_eq_true_eq]

/-- Witness for claim C2 at the concrete interpretation `sampleOps` with
`n2 = 3/2`, `n1 = 1`, `A = 30`, `θ1 = 0` (complete, non-TIR case). -/
theorem prism_entry_and_complete_claim_witness :
    prismResult sampleOps (3/2) 1 30 0 = .computed
      { theta1Rad := 0 * sampleOps.pi / 180,
        theta2Rad := sampleOps.asin 0,
        theta3Rad := 30 * sampleOps.pi / 180 - sampleOps.asin 0,
        theta4Rad := if |(3:ℚ)/4| > 1 then 0 else sampleOps.asin (3/4),
        deviationDeg := (0 * sampleOps.pi / 180 +
          (if |(3:ℚ)/4| > 1 then 0 else sampleOps.asin (3/4)) -
            30 * sampleOps.pi / 180) * 180 / sampleOps.pi,
        isTIR := decide (|(3:ℚ)/4| > 1),
        stage := if |(3:ℚ)/4| > 1 then "exit" else "complete",
        criticalAngle := if (3:ℚ)/2 > 1
          then some (sampleOps.asin (1 / (3/2)) * 180 / sampleOps.pi) else none } := by
  have h := (prism_entry_and_complete_claim sampleOps (3/2) 1 30 0
      0 (by norm_num [sampleOps])
      (3/4) (by norm_num [sampleOps])).2 (by norm_num)
  exact h

/-- Claim C3 (amended): when the entry interface passes but
`|sinθ4| > 1`, the result does carry the distinguishing flags
`isTIR = true`, `stage = "exit"`; however `theta4Rad` is set to the
numeric placeholder `0` and `deviationDeg` is still computed numerically
as `(θ1 + 0 - A)·180/π`, i.e. a numeric deviation obtained with `θ4 = 0`
is produced and callers must branch on `isTIR` before using it. -/
theorem prism_exit_tir_amended (ops : TrigOps) (nPrism nEnv angleA incidentAngle : ℚ)
    (s2 : ℚ) (hs2 : s2 = (nEnv / nPrism) * ops.sin (incidentAngle * ops.pi / 180))
    (s4 : ℚ)
    (hs4 : s4 = (nPrism / nEnv) * ops.sin (angleA * ops.pi / 180 - ops.asin s2))
    (h2 : |s2| ≤ 1) (h4 : |s4| > 1) :
    prismResult ops nPrism nEnv angleA incidentAngle = .computed
      { theta1Rad := incidentAngle * ops.pi / 180,
        theta2Rad := ops.asin s2,
        theta3Rad := angleA * ops.pi / 180 - ops.asin s2,
        theta4Rad := 0,
        deviationDeg := (incidentAngle * ops.pi / 180 + 0 - angleA * ops.pi / 180)
          * 180 / ops.pi,
        isTIR := true,
        stage := "exit",
        criticalAngle := if nPrism > nEnv
          then some (ops.asin (nEnv / nPrism) * 180 / ops.pi) else none } := by
  subst hs2
  subst hs4
  rw [prismResult, if_neg (not_lt.mpr h2)]
  simp [h4]

/-- Claim C3 counterexample: with `n2 = 3/2`, `n1 = 1`, `A = 60°`,
`θ1 = 0` the exit stage suffers TIR, yet the result record contains the
numeric `theta4Rad = 0` and the numeric deviation `-60` (computed with
`θ4 = 0`) — contradicting the claim that no numeric deviation value is
produced in the exit-TIR case.  (`sampleOps` interprets the trig
primitives; under it `sin 0 = 0` and `asin 0 = 0` as for the real
functions, and the prism's branch structure is trig-independent.) -/
theorem prism_exit_deviation_counterexample :
    prismResult sampleOps (3/2) 1 60 0 = .computed
      { theta1Rad := 0, theta2Rad := 0, theta3Rad := 1, theta4Rad := 0,
        deviationDeg := -60, isTIR := true, stage := "exit",
        criticalAngle := some 40 } := by
  have h2' : ¬(|(1 / ((3:ℚ)/2)) * sampleOps.sin (0 * sampleOps.pi / 180)| > 1) := by
    norm_num [sampleOps]
  rw [prismResult, if_neg h2']
  have habs : (1:ℚ) < |(3:ℚ)/2| := by
    rw [abs_of_pos (by norm_num)]
    norm_num
  simp [sampleOps, habs]
  norm_num
  exact ⟨habs, by rw [if_pos habs]; norm_num, habs⟩

/-- Witness for the amended claim C3 at `sampleOps`, `n2 = 3/2`, `n1 = 1`,
`A = 90`, `θ1 = 0`: exit-stage TIR with the numeric placeholder fields. -/
theorem prism_exit_tir_amended_witness :
    prismResult sampleOps (3/2) 1 90 0 = .computed
      { theta1Rad := 0 * sampleOps.pi / 180,
        theta2Rad := sampleOps.asin 0,
        theta3Rad := 90 * sampleOps.pi / 180 - sampleOps.asin 0,
        theta4Rad := 0,
        deviationDeg := (0 * sampleOps.pi / 180 + 0 - 90 * sampleOps.pi / 180)
          * 180 / sampleOps.pi,
        isTIR := true,
        stage := "exit",
        criticalAngle := if (3:ℚ)/2 > 1
          then some (sampleOps.asin (1 / (3/2)) * 180 / sampleOps.pi) else none } :=
  prism_exit_tir_amended sampleOps (3/2) 1 90 0
    0 (by norm_num [sampleOps])
    (9/4) (by norm_num [sampleOps])
    (by norm_num)
    (by rw [abs_of_pos (by norm_num)]; norm_num)

/-- Claim C8: the interference intensity is the product of the
diffraction envelope (`1` at the removable singularity `β = 0`, else
`(sin β / β)²`) and the interference term (`cos²α` in double-slit mode,
`1` in single-slit mode), with `sinθ = y/L`, `β = π·a·sinθ/λ`,
`α = π·d·sinθ/λ`; and at `y = 0` the intensity is `1` for any `a`, `d`
and `λ > 0` (using `cos 0 = 1`, true of the real cosine). -/
theorem intensity_formula_claim (ops : TrigOps) (mode : String)
    (lambda a d L y : ℚ) (hlam : 0 < lambda) (hcos0 : ops.cos 0 = 1) :
    intensityAt ops mode lambda a d L y =
      (if ops.pi * a * (y / L) / lambda = 0 then 1
       else (ops.sin (ops.pi * a * (y / L) / lambda) /
             (ops.pi * a * (y / L) / lambda)) ^ 2) *
      (if mode = "double" then ops.cos (ops.pi * d * (y / L) / lambda) ^ 2 else 1) ∧
    intensityAt ops mode lambda a d L 0 = 1 := by
  constructor
  · rfl
  · rw [intensityAt]
    have hb : ops.pi * a * (0 / L) / lambda = 0 := by
      rw [zero_div, mul_zero, zero_div]
    have ha : ops.pi * d * (0 / L) / lambda = 0 := by
      rw [zero_div, mul_zero, zero_div]
    rw [hb, ha, if_pos rfl, hcos0]
    split <;> norm_num

/-- Witness for claim C8 at `sampleOps` (for which `cos 0 = 1`) in
double-slit mode. -/
theorem intensity_formula_claim_witness :
    intensityAt sampleOps "double" 2 1 3 1 5 =
      (if sampleOps.pi * 1 * (5 / 1) / 2 = 0 then 1
       else (sampleOps.sin (sampleOps.pi * 1 * (5 / 1) / 2) /
             (sampleOps.pi * 1 * (5 / 1) / 2)) ^ 2) *
      (if ("double":String) = "double"
       then sampleOps.cos (sampleOps.pi * 3 * (5 / 1) / 2) ^ 2 else 1) ∧
    intensityAt sampleOps "double" 2 1 3 1 0 = 1 :=
  intensity_formula_claim sampleOps "double" 2 1 3 1 5 (by norm_num) rfl

/-- Claim C10 (implicit): for any interpretation of the trigonometric
primitives satisfying `|sin x| ≤ |x|` and `|cos x| ≤ 1` (true of the
real functions), every computed intensity value lies in `[0, 1]`, in
both single- and double-slit modes. -/
theorem intensity_bounded_unit (ops : TrigOps)
    (hsin : ∀ x : ℚ, |ops.sin x| ≤ |x|) (hcos : ∀ x : ℚ, |ops.cos x| ≤ 1)
    (mode : String) (lambda a d L y : ℚ) (hlam : 0 < lambda) (hL : L ≠ 0) :
    0 ≤ intensityAt ops mode lambda a d L y ∧
    intensityAt ops mode lambda a d L y ≤ 1 := by
  rw [intensityAt]
  have hdiff0 : (0:ℚ) ≤ (if ops.pi * a * (y / L) / lambda = 0 then 1
      else (ops.sin (ops.pi * a * (y / L) / lambda) /
            (ops.pi * a * (y / L) / lambda)) ^ 2) := by
    split
    · norm_num
    · positivity
  have hdiff1 : (if ops.pi * a * (y / L) / lambda = 0 then 1
      else (ops.sin (ops.pi * a * (y / L) / lambda) /
            (ops.pi * a * (y / L) / lambda)) ^ 2) ≤ 1 := by
    split
    · exact le_refl 1
    · rename_i hb
      rw [div_pow, div_le_one (by positivity)]
      have h := hsin (ops.pi * a * (y / L) / lambda)
      calc ops.sin (ops.pi * a * (y / L) / lambda) ^ 2
          = |ops.sin (ops.pi * a * (y / L) / lambda)| ^ 2 := (sq_abs _).symm
        _ ≤ |ops.pi * a * (y / L) / lambda| ^ 2 := by
            exact pow_le_pow_left (abs_nonneg _) h 2
        _ = (ops.pi * a * (y / L) / lambda) ^ 2 := sq_abs _
  have hint0 : (0:ℚ) ≤ (if mode = "double"
      then ops.cos (ops.pi * d * (y / L) / lambda) ^ 2 else 1) := by
    split
    · positivity
    · norm_num
  have hint1 : (if mode = "double"
      then ops.cos (ops.pi * d * (y / L) / lambda) ^ 2 else 1) ≤ 1 := by
    split
    · have h := hcos (ops.pi * d * (y / L) / lambda)
      calc ops.cos (ops.pi * d * (y / L) / lambda) ^ 2
          = |ops.cos (ops.pi * d * (y / L) / lambda)| ^ 2 := (sq_abs _).symm
        _ ≤ 1 ^ 2 := by exact pow_le_pow_left (abs_nonneg _) h 2
        _ = 1 := one_pow 2
    · exact le_refl 1
  exact ⟨mul_nonneg hdiff0 hint0, mul_le_one hdiff1 hint0 hint1⟩

/-- Witness for claim C10 at `sampleOps` (whose `sin`/`cos` satisfy both
bounds) in double-slit mode at an off-axis position. -/
theorem intensity_bounded_unit_witness :
    0 ≤ intensityAt sampleOps "double" 2 1 3 1 5 ∧
    intensityAt sampleOps "double" 2 1 3 1 5 ≤ 1 :=
  intensity_bounded_unit sampleOps
    (fun x => le_of_eq rfl) (fun x => by norm_num [sampleOps])
    "double" 2 1 3 1 5 (by norm_num) (by norm_num)

/-- A global-replace scan is the identity when the matcher fails on every
suffix of the input. -/
theorem scanGo_eq_self {step : List Char → Option (List Char × List Char)} :
    ∀ (s : List Char), (∀ t, t <:+ s → step t = none) →
      ∀ fuel, scanGo step fuel s = s := by
  intro s
  induction s with
  | nil =>
    intro h fuel
    cases fuel with
    | zero => rfl
    | succ n => simp [scanGo, h [] (List.suffix_refl _)]
  | cons c cs ih =>
    intro h fuel
    cases fuel with
    | zero => rfl
    | succ n =>
      have h0 : step (c :: cs) = none := h _ (List.suffix_refl _)
      simp only [scanGo, h0]
      rw [ih (fun t ht => h t (ht.trans (List.suffix_cons c cs))) n]

/-- `scanRewrite` version of `scanGo_eq_self`. -/
theorem scanRewrite_eq_self {step : List Char → Option (List Char × List Char)}
    (s : List Char) (h : ∀ t, t <:+ s → step t = none) :
    scanRewrite step s = s :=
  scanGo_eq_self s h s.length

/-- A literal-pattern matcher fails when the pattern's first character
does not occur in the input. -/
theorem stepLit_none {p : Char} {ps repl t : List Char} (h : p ∉ t) :
    stepLit (p :: ps) repl t = none := by
  cases t with
  | nil => simp [stepLit, startsWith]
  | cons c cs =>
    have hc : ¬(p = c) := fun hh => h (by simp [hh])
    simp [stepLit, startsWith, hc]

/-- Literal replacement is the identity when the pattern's head character
does not occur in the input. -/
theorem replaceAll_eq_self {pat repl s : List Char} {p : Char}
    (hp : pat.head? = some p) (h : p ∉ s) : replaceAll pat repl s = s := by
  cases pat with
  | nil => simp at hp
  | cons q qs =>
    have hq : q = p := by simpa using hp
    subst hq
    exact scanRewrite_eq_self s fun t ht =>
      stepLit_none (fun hm => h (ht.subset hm))

/-- The spacing-command matcher fails on backslash-free input. -/
theorem stepSpacing_none {t : List Char} (h : '\\' ∉ t) : stepSpacing t = none := by
  cases t with
  | nil => rfl
  | cons c rest =>
    cases rest with
    | nil => rfl
    | cons c2 rest2 =>
      have hc : ¬(c = '\\') := fun hh => h (by simp [hh])
      simp [stepSpacing, hc]

/-- `\text` matcher fails on backslash-free input. -/
theorem stepText_none {t : List Char} (h : '\\' ∉ t) : stepText t = none := by
  cases t with
  | nil => rfl
  | cons c rest =>
    have hc : ¬(c = '\\') := fun hh => h (by simp [hh])
    simp [stepText, hc]

/-- Braced `\sqrt` matcher fails on backslash-free input. -/
theorem stepSqrtBrace_none {t : List Char} (h : '\\' ∉ t) : stepSqrtBrace t = none := by
  cases t with
  | nil => rfl
  | cons c rest =>
    have hc : ¬(c = '\\') := fun hh => h (by simp [hh])
    simp [stepSqrtBrace, hc]

/-- Bracketed `\sqrt` matcher fails on backslash-free input. -/
theorem stepSqrtRoot_none {t : List Char} (h : '\\' ∉ t) : stepSqrtRoot t = none := by
  cases t with
  | nil => rfl
  | cons c rest =>
    have hc : ¬(c = '\\') := fun hh => h (by simp [hh])
    simp [stepSqrtRoot, hc]

/-- `\frac` matcher fails on backslash-free input. -/
theorem stepFrac_none {t : List Char} (h : '\\' ∉ t) : stepFrac t = none := by
  cases t with
  | nil => rfl
  | cons c rest =>
    have hc : ¬(c = '\\') := fun hh => h (by simp [hh])
    simp [stepFrac, hc]

/-- Braced-subscript matcher fails on underscore-free input. -/
theorem stepSubBrace_none {t : List Char} (h : '_' ∉ t) : stepSubBrace t = none := by
  cases t with
  | nil => rfl
  | cons c rest =>
    have hc : ¬(c = '_') := fun hh => h (by simp [hh])
    simp [stepSubBrace, hc]

/-- Braced-superscript matcher fails on caret-free input. -/
theorem stepSupBrace_none {t : List Char} (h : '^' ∉ t) : stepSupBrace t = none := by
  cases t with
  | nil => rfl
  | cons c rest =>
    have hc : ¬(c = '^') := fun hh => h (by simp [hh])
    simp [stepSupBrace, hc]

/-- Single-character subscript matcher fails on underscore-free input. -/
theorem stepSubSingle_none {t : List Char} (h : '_' ∉ t) : stepSubSingle t = none := by
  cases t with
  | nil => rfl
  | cons c rest =>
    cases rest with
    | nil => rfl
    | cons c2 rest2 =>
      have hc : ¬(c = '_') := fun hh => h (by simp [hh])
      simp [stepSubSingle, hc]

/-- Single-character superscript matcher fails on caret-free input. -/
theorem stepSupSingle_none {t : List Char} (h : '^' ∉ t) : stepSupSingle t = none := by
  cases t with
  | nil => rfl
  | cons c rest =>
    cases rest with
    | nil => rfl
    | cons c2 rest2 =>
      have hc : ¬(c = '^') := fun hh => h (by simp [hh])
      simp [stepSupSingle, hc]

/-- Fraction-polish matcher fails without an opening parenthesis. -/
theorem stepFracPolish_none {t : List Char} (h : '(' ∉ t) : stepFracPolish t = none := by
  cases t with
  | nil => rfl
  | cons c rest =>
    have hc : ¬(c = '(') := fun hh => h (by simp [hh])
    simp [stepFracPolish, hc]

/-- Superscript-paren polish matcher fails on caret-free input. -/
theorem stepSupParen_none {t : List Char} (h : '^' ∉ t) : stepSupParen t = none := by
  cases t with
  | nil => rfl
  | cons c rest =>
    cases rest with
    | nil => rfl
    | cons c2 rest2 =>
      cases rest2 with
      | nil => rfl
      | cons c3 rest3 =>
        cases rest3 with
        | nil => rfl
        | cons c4 rest4 =>
          have hc : ¬(c = '^') := fun hh => h (by simp [hh])
          simp [stepSupParen, hc]

/-- Every key of the sorted symbol table begins with a backslash. -/
theorem sortedSymbolPairs_heads :
    ∀ kv ∈ sortedSymbolPairs, kv.1.data.head? = some '\\' := by
  decide

/-- The symbol map is the identity on backslash-free input. -/
theorem applySymbolMap_eq_self {s : List Char} (h : '\\' ∉ s) :
    applySymbolMap s = s := by
  have H : ∀ (l : List (String × String)),
      (∀ kv ∈ l, kv.1.data.head? = some '\\') →
      l.foldl (fun acc kv => replaceAll kv.1.data kv.2.data acc) s = s := by
    intro l
    induction l with
    | nil => intro _; rfl
    | cons kv l ih =>
      intro hk
      simp only [List.foldl_cons]
      rw [replaceAll_eq_self (hk kv (List.mem_cons_self _ _)) h]
      exact ih fun kv2 h2 => hk kv2 (List.mem_cons_of_mem _ h2)
  exact H sortedSymbolPairs sortedSymbolPairs_heads

/-- One structural pass is the identity on inert input. -/
theorem structPass_eq_self {s : List Char} (h : Plain s) : structPass s = s := by
  have hbs : '\\' ∉ s := fun hm => (h _ hm).1 rfl
  have hus : '_' ∉ s := fun hm => (h _ hm).2.2.2.1 rfl
  have hcar : '^' ∉ s := fun hm => (h _ hm).2.2.2.2.1 rfl
  unfold structPass
  rw [scanRewrite_eq_self s fun t ht => stepText_none fun hm => hbs (ht.subset hm),
    scanRewrite_eq_self s fun t ht => stepSqrtBrace_none fun hm => hbs (ht.subset hm),
    scanRewrite_eq_self s fun t ht => stepSqrtRoot_none fun hm => hbs (ht.subset hm),
    scanRewrite_eq_self s fun t ht => stepFrac_none fun hm => hbs (ht.subset hm),
    scanRewrite_eq_self s fun t ht => stepSubBrace_none fun hm => hus (ht.subset hm),
    scanRewrite_eq_self s fun t ht => stepSupBrace_none fun hm => hcar (ht.subset hm)]

/-- If one pass is the identity, the loop stops after a single pass. -/
theorem cleanLoopRun_of_fixed {s : List Char} (h : structPass s = s) :
    cleanLoopRun s = (s, 1) := by
  unfold cleanLoopRun cleanLoopGo
  simp [h]

/-- The loop executes at most ten passes and stops either at a fixed
point of the pass or at the ten-pass ceiling. -/
theorem cleanLoopGo_spec : ∀ (fuel loops : Nat) (s : List Char),
    loops + fuel = 10 →
    (cleanLoopGo fuel loops s).2 ≤ 10 ∧
    (structPass (cleanLoopGo fuel loops s).1 = (cleanLoopGo fuel loops s).1 ∨
      (cleanLoopGo fuel loops s).2 = 10) := by
  intro fuel
  induction fuel with
  | zero =>
    intro loops s h
    simp only [cleanLoopGo]
    refine ⟨by omega, Or.inr (by omega)⟩
  | succ n ih =>
    intro loops s h
    simp only [cleanLoopGo]
    by_cases hc : structPass s ≠ s ∧ loops + 1 < 10
    · rw [if_pos hc]
      exact ih (loops + 1) (structPass s) (by omega)
    · rw [if_neg hc]
      push_neg at hc
      refine ⟨by omega, ?_⟩
      by_cases he : structPass s = s
      · exact Or.inl (by rw [he, he])
      · exact Or.inr (by have := hc he; omega)

/-- Characters of the collapsed string come from the input or are plain
spaces. -/
theorem collapseWs_mem : ∀ {s : List Char} {c : Char},
    c ∈ collapseWs s → c = ' ' ∨ c ∈ s := by
  intro s
  induction s with
  | nil => intro c hc; simp [collapseWs] at hc
  | cons c1 rest ih =>
    intro c hc
    cases rest with
    | nil =>
      by_cases h1 : jsWs c1 = true <;> simp [collapseWs, h1] at hc
      · exact Or.inl hc
      · exact Or.inr (by simp [hc])
    | cons c2 rest2 =>
      by_cases hb : (jsWs c1 && jsWs c2) = true
      · rw [show collapseWs (c1 :: c2 :: rest2) = collapseWs (c2 :: rest2) by
          simp [collapseWs, hb]] at hc
        rcases ih hc with h | h
        · exact Or.inl h
        · exact Or.inr (List.mem_cons_of_mem _ h)
      · rw [show collapseWs (c1 :: c2 :: rest2) =
            (if jsWs c1 then ' ' else c1) :: collapseWs (c2 :: rest2) by
          simp only [collapseWs, if_neg hb]] at hc
        rcases List.mem_cons.mp hc with h | h
        · by_cases h1 : jsWs c1 = true <;> simp [h1] at h
          · exact Or.inl h
          · exact Or.inr (by simp [h])
        · rcases ih h with h2 | h2
          · exact Or.inl h2
          · exact Or.inr (List.mem_cons_of_mem _ h2)

/-- Head of a collapsed nonempty string. -/
theorem collapseWs_head : ∀ (rest : List Char) (c : Char),
    (collapseWs (c :: rest)).head? = some (if jsWs c then ' ' else c) := by
  intro rest
  induction rest with
  | nil =>
    intro c
    by_cases h1 : jsWs c = true <;> simp [collapseWs, h1]
  | cons c2 rest2 ih =>
    intro c
    by_cases hb : (jsWs c && jsWs c2) = true
    · rw [show collapseWs (c :: c2 :: rest2) = collapseWs (c2 :: rest2) by
        simp [collapseWs, hb]]
      rw [ih c2]
      have hc : jsWs c = true := by
        cases hj : jsWs c
        · rw [hj] at hb; simp at hb
        · rfl
      have hc2 : jsWs c2 = true := by
        cases hj : jsWs c2
        · rw [hj] at hb; simp at hb
        · rfl
      rw [if_pos hc, if_pos hc2]
    · rw [show collapseWs (c :: c2 :: rest2) =
          (if jsWs c then ' ' else c) :: collapseWs (c2 :: rest2) by
        simp only [collapseWs, if_neg hb]]
      rfl

/-- The collapsed string is whitespace-normal. -/
theorem collapseWs_wsNormal : ∀ s : List Char, WsNormal (collapseWs s) := by
  intro s
  induction s with
  | nil => exact ⟨by simp [collapseWs], by simp [collapseWs]⟩
  | cons c1 rest ih =>
    cases rest with
    | nil =>
      constructor
      · intro c hc hws
        by_cases h1 : jsWs c1 = true <;> simp [collapseWs, h1] at hc
        · exact hc
        · rw [hc] at hws
          exact absurd hws (by simp [h1])
      · by_cases h1 : jsWs c1 = true <;> simp [collapseWs, h1]
    | cons c2 rest2 =>
      by_cases hb : (jsWs c1 && jsWs c2) = true
      · rw [show collapseWs (c1 :: c2 :: rest2) = collapseWs (c2 :: rest2) by
          simp [collapseWs, hb]]
        exact ih
      · rw [show collapseWs (c1 :: c2 :: rest2) =
            (if jsWs c1 then ' ' else c1) :: collapseWs (c2 :: rest2) by
          simp only [collapseWs, if_neg hb]]
        obtain ⟨ihall, ihchain⟩ := ih
        constructor
        · intro c hc hws
          rcases List.mem_cons.mp hc with h | h
          · rw [h]
            by_cases h1 : jsWs c1 = true
            · rw [if_pos h1]
            · rw [if_neg h1]
              rw [h, if_neg h1] at hws
              exact absurd hws (by simp [h1])
          · exact ihall c h hws
        · rw [List.chain'_cons']
          refine ⟨?_, ihchain⟩
          intro y hy
          rw [collapseWs_head rest2 c2] at hy
          simp only [Option.mem_def, Option.some.injEq] at hy
          intro hpair
          by_cases h1 : jsWs c1 = true
          · have hc2 : jsWs c2 = false := by
              cases hj : jsWs c2
              · rfl
              · exact absurd (by simp [h1, hj] : (jsWs c1 && jsWs c2) = true) hb
            have h2 := hpair.2
            rw [← hy] at h2
            rw [if_neg (by simp [hc2] : ¬(jsWs c2 = true))] at h2
            rw [h2] at hc2
            simp at hc2
          · have h2 := hpair.1
            rw [if_neg h1] at h2
            exact h1 h2

/-- Collapse is the identity on whitespace-normal strings. -/
theorem collapseWs_eq_self : ∀ t : List Char, WsNormal t → collapseWs t = t := by
  intro t
  induction t with
  | nil => intro _; rfl
  | cons c1 rest ih =>
    intro h
    obtain ⟨hall, hchain⟩ := h
    cases rest with
    | nil =>
      by_cases h1 : jsWs c1 = true
      · have hsp : c1 = ' ' := hall c1 (by simp) h1
        simp [collapseWs, h1, hsp]
      · simp [collapseWs, h1]
    | cons c2 rest2 =>
      have hlink : ¬(jsWs c1 = true ∧ jsWs c2 = true) := (List.chain'_cons.mp hchain).1
      have hb : ¬((jsWs c1 && jsWs c2) = true) := by
        simp only [Bool.and_eq_true]
        exact hlink
      rw [show collapseWs (c1 :: c2 :: rest2) =
          (if jsWs c1 then ' ' else c1) :: collapseWs (c2 :: rest2) by
        simp only [collapseWs, if_neg hb]]
      congr 1
      · by_cases h1 : jsWs c1 = true
        · rw [if_pos h1]
          exact (hall c1 (by simp) h1).symm
        · rw [if_neg h1]
      · exact ih ⟨fun c hc hw => hall c (List.mem_cons_of_mem _ hc) hw,
          (List.chain'_cons.mp hchain).2⟩

/-- The head of a `dropWhile` result fails the predicate. -/
theorem dropWhile_head_false {p : Char → Bool} :
    ∀ {l : List Char} {c : Char} {cs : List Char},
      l.dropWhile p = c :: cs → p c = false := by
  intro l
  induction l with
  | nil => intro c cs h; simp at h
  | cons a l2 ih =>
    intro c cs h
    rw [List.dropWhile_cons] at h
    by_cases ha : p a = true
    · rw [if_pos ha] at h
      exact ih h
    · rw [if_neg ha] at h
      injection h with h1 _
      rw [← h1]
      simpa using ha

/-- `dropWhile` is the identity when the head already fails the
predicate. -/
theorem dropWhile_eq_self_of_head {p : Char → Bool} {l : List Char}
    (h : ∀ c cs, l = c :: cs → p c = false) : l.dropWhile p = l := by
  cases l with
  | nil => rfl
  | cons a l2 =>
    rw [List.dropWhile_cons, if_neg]
    simp [h a l2 rfl]

/-- Whitespace normality survives `dropWhile`. -/
theorem wsNormal_dropWhile {p : Char → Bool} {t : List Char} (h : WsNormal t) :
    WsNormal (t.dropWhile p) :=
  ⟨fun c hc hw => h.1 c ((List.dropWhile_sublist p).subset hc) hw,
   h.2.suffix (List.dropWhile_suffix p)⟩

/-- Whitespace normality survives `reverse`. -/
theorem wsNormal_reverse {t : List Char} (h : WsNormal t) : WsNormal t.reverse := by
  refine ⟨fun c hc hw => h.1 c (List.mem_reverse.mp hc) hw, ?_⟩
  rw [List.chain'_reverse]
  exact h.2.imp fun a b hab => fun hp => hab ⟨hp.2, hp.1⟩

/-- Whitespace normality survives both-ends trimming. -/
theorem wsNormal_trimJs {t : List Char} (h : WsNormal t) : WsNormal (trimJs t) :=
  wsNormal_reverse (wsNormal_dropWhile (wsNormal_reverse (wsNormal_dropWhile h)))

/-- Trim is idempotent. -/
theorem trimJs_trimJs (t : List Char) : trimJs (trimJs t) = trimJs t := by
  have hu : trimJs t = ((t.dropWhile jsWs).reverse.dropWhile jsWs).reverse := rfl
  rw [hu]
  unfold trimJs
  have h1 : ((t.dropWhile jsWs).reverse.dropWhile jsWs).reverse.dropWhile jsWs =
      ((t.dropWhile jsWs).reverse.dropWhile jsWs).reverse := by
    apply dropWhile_eq_self_of_head
    intro c cs hc
    have hpre : ((t.dropWhile jsWs).reverse.dropWhile jsWs).reverse <+:
        t.dropWhile jsWs := by
      have h0 : (t.dropWhile jsWs).reverse.dropWhile jsWs <:+
          (t.dropWhile jsWs).reverse := List.dropWhile_suffix jsWs
      have hrev := List.reverse_prefix.mpr h0
      rwa [List.reverse_reverse] at hrev
    obtain ⟨t2, ht2⟩ := hpre
    rw [hc] at ht2
    have hx : t.dropWhile jsWs = c :: (cs ++ t2) := by rw [← ht2]; rfl
    exact dropWhile_head_false hx
  rw [h1, List.reverse_reverse]
  have h2 : ((t.dropWhile jsWs).reverse.dropWhile jsWs).dropWhile jsWs =
      (t.dropWhile jsWs).reverse.dropWhile jsWs := by
    apply dropWhile_eq_self_of_head
    intro c cs hc
    exact dropWhile_head_false hc
  rw [h2]

/-- Characters of the trimmed string come from the input. -/
theorem trimJs_subset {t : List Char} : trimJs t ⊆ t := by
  intro c hc
  unfold trimJs at hc
  rw [List.mem_reverse] at hc
  have h1 := (List.dropWhile_sublist jsWs).subset hc
  rw [List.mem_reverse] at h1
  exact (List.dropWhile_sublist jsWs).subset h1

/-- Inertness survives whitespace collapse. -/
theorem plain_collapseWs {s : List Char} (h : Plain s) : Plain (collapseWs s) := by
  intro c hc
  rcases collapseWs_mem hc with h1 | h1
  · rw [h1]
    decide
  · exact h c h1

/-- Inertness survives trimming. -/
theorem plain_trimJs {s : List Char} (h : Plain s) : Plain (trimJs s) :=
  fun c hc => h c (trimJs_subset hc)

/-- On inert input the whole normalizer reduces to whitespace collapse
followed by trimming: every rewriting stage is the identity. -/
theorem cleanLatexL_plain {s : List Char} (h : Plain s) :
    cleanLatexL s = trimJs (collapseWs s) := by
  have hbs : '\\' ∉ s := fun hm => (h _ hm).1 rfl
  have hcol : Plain (collapseWs s) := plain_collapseWs h
  have hbs2 : '\\' ∉ collapseWs s := fun hm => (hcol _ hm).1 rfl
  have hus2 : '_' ∉ collapseWs s := fun hm => (hcol _ hm).2.2.2.1 rfl
  have hcar2 : '^' ∉ collapseWs s := fun hm => (hcol _ hm).2.2.2.2.1 rfl
  have htr : Plain (trimJs (collapseWs s)) := plain_trimJs hcol
  simp only [cleanLatexL]
  rw [scanRewrite_eq_self s fun t ht => stepSpacing_none fun hm => hbs (ht.subset hm)]
  rw [replaceAll_eq_self (by decide : ("\\ ".data).head? = some '\\') hbs]
  rw [replaceAll_eq_self (by decide : ("\\left".data).head? = some '\\') hbs2]
  rw [replaceAll_eq_self (by decide : ("\\right".data).head? = some '\\') hbs2]
  rw [replaceAll_eq_self (by decide : ("\\mathrm".data).head? = some '\\') hbs2]
  rw [replaceAll_eq_self (by decide : ("\\mathbf".data).head? = some '\\') hbs2]
  rw [applySymbolMap_eq_self hbs2]
  rw [cleanLoopRun_of_fixed (structPass_eq_self hcol)]
  rw [show ((collapseWs s, 1) : List Char × Nat).1 = collapseWs s from rfl]
  rw [scanRewrite_eq_self (collapseWs s) fun t ht =>
    stepSubSingle_none fun hm => hus2 (ht.subset hm)]
  rw [scanRewrite_eq_self (collapseWs s) fun t ht =>
    stepSupSingle_none fun hm => hcar2 (ht.subset hm)]
  rw [show removeBraces (collapseWs s) = collapseWs s from
    List.filter_eq_self.mpr fun c hc => by
      have hp := hcol c hc
      simp [notBrace, hp.2.1, hp.2.2.1]]
  rw [collapseWs_eq_self (collapseWs s) (collapseWs_wsNormal s)]
  rw [scanRewrite_eq_self (trimJs (collapseWs s)) fun t ht =>
    stepFracPolish_none fun hm => ((htr _ (ht.subset hm)).2.2.2.2.2) rfl]
  rw [scanRewrite_eq_self (trimJs (collapseWs s)) fun t ht =>
    stepSupParen_none fun hm => ((htr _ (ht.subset hm)).2.2.2.2.1) rfl]

/-- Claim C9: the structural-resolution loop of `cleanLatex` executes at
most 10 passes, and it terminates either because a pass left the string
unchanged (the result is a fixed point of `structPass`) or because the
10-pass ceiling was reached.  The pipeline itself (`cleanLatexL`, of
which `cleanLoopRun` is the only iterative stage) is a total function on
arbitrary input, so the embedded normalizer can never throw. -/
theorem cleanLatex_loop_bound (s : List Char) :
    (cleanLoopRun s).2 ≤ 10 ∧
    (structPass (cleanLoopRun s).1 = (cleanLoopRun s).1 ∨ (cleanLoopRun s).2 = 10) :=
  cleanLoopGo_spec 10 0 s rfl

/-- Claim C5 (amended): `cleanLatex` is idempotent on strings whose
characters are all inert for the rewriting stages — no backslash (hence
no remaining LaTeX command), no brace, no `_`, no `^`, and no `(`.
Without the extra restrictions the claim fails: the cosmetic stage
rewrites `^(2)` to `^2`, which a second call turns into `²` (see the
counterexample). -/
theorem cleanLatex_idempotent_plain (s : String)
    (h : ∀ c ∈ s.data, PlainChar c) :
    cleanLatex (cleanLatex s) = cleanLatex s := by
  have h1 : Plain s.data := h
  have hlist : cleanLatexL (cleanLatexL s.data) = cleanLatexL s.data := by
    rw [cleanLatexL_plain h1]
    rw [cleanLatexL_plain (plain_trimJs (plain_collapseWs h1))]
    rw [collapseWs_eq_self (trimJs (collapseWs s.data))
      (wsNormal_trimJs (collapseWs_wsNormal s.data))]
    rw [trimJs_trimJs]
  have hdef : ∀ t : String, cleanLatex t = String.mk (cleanLatexL t.data) :=
    fun t => rfl
  have hmk : ∀ l : List Char, (String.mk l).data = l := fun l => rfl
  rw [hdef (cleanLatex s), hdef s, hmk, hlist]

/-- Claim C5 counterexample: `"^(2)"` contains no LaTeX command (no
backslash at all), yet normalizing twice differs from normalizing once:
`cleanLatex "^(2)" = "^2"` but `cleanLatex "^2" = "²"` — the cosmetic
`^($1)` → `^$1` stage runs after the superscript substitution, so its
output is not a fixed point. -/
theorem cleanLatex_idempotent_counterexample :
    cleanLatex "^(2)" = "^2" ∧
    cleanLatex (cleanLatex "^(2)") = "²" ∧
    ("^2" : String) ≠ "²" := by
  refine ⟨by decide, by decide, by decide⟩

/-- Witness for the amended claim C5 on an inert string. -/
theorem cleanLatex_idempotent_plain_witness :
    cleanLatex (cleanLatex "v = d / t") = cleanLatex "v = d / t" :=
  cleanLatex_idempotent_plain "v = d / t" (by decide)

end OpticsCore
